import Mathlib

/-!
Verification development for the go-testdeep operator slice.

The definitions below are shallow embeddings of the Go source files:
  - td/td_array.go     : Array / Slice operators (tdArray)
  - td_re.go           : Re / ReAll operators (tdRe)
  - td_json.go         : JSON / SubJSONOf / SuperJSONOf operators (tdJSON, tdMapJSON)

Conventions used throughout:
  - Go machine integers appearing as indices are modelled as Nat (override
    keys) or Int (the -1-initialized maxIndex accumulator), exactly where
    the source uses them.
  - Fallible construction returns Except String, mirroring the Go
    (value, error) convention; the error payload is the Go format string
    with its arguments substituted.
  - The recursive dispatcher deepValueEqual lives outside the provided
    sources; Match embeddings take it as an explicit function parameter,
    and concrete instantiations are supplied where claims exercise plain
    (non-operator) expected values, where deepValueEqual is plain deep
    equality.
-/

namespace TestDeep

/-- List update at an index; out-of-range updates leave the list unchanged.
Models writing one slot of the Go slice `a.expectedEntries`. -/
def listSet {β : Type} : List β → Nat → β → List β
  | [], _, _ => []
  | _ :: xs, 0, v => v :: xs
  | x :: xs, n + 1, v => x :: listSet xs n v

/-- Go reflect.Kind values relevant to the Array/Slice element-type
dispatch in populateExpectedEntries (td_array.go). -/
inductive GoKind where
  | kChan | kFunc | kInterface | kMap | kPtr | kSlice
  | kBool | kInt | kUint | kFloat | kString | kStruct | kArray | kOther
  deriving DecidableEq, Repr

/-- The kinds accepted for a nil expected entry in populateExpectedEntries:
reflect.Chan, Func, Interface, Map, Ptr, Slice (td_array.go switch). -/
def nilableKind : GoKind → Bool
  | .kChan | .kFunc | .kInterface | .kMap | .kPtr | .kSlice => true
  | _ => false

/-- A value of the ArrayEntries map: Go interface value that is either
untyped nil or an actual element value. TestDeep-operator entries are out
of scope of the claims exercised here (they would bypass the
AssignableTo check only). -/
inductive OverrideVal (α : Type) where
  | onil
  | oval (v : α)
  deriving DecidableEq, Repr

/-- Interpretation of an override entry once accepted: nil becomes the
typed nil zero value of the element type (reflect.Zero(elemType)). -/
def ovInterp {α : Type} (z : α) : OverrideVal α → α
  | .onil => z
  | .oval v => v

/-- Whether the operator was built by Array (fixed length) or Slice. -/
inductive SeqKind where
  | array (len : Nat)
  | slice
  deriving DecidableEq, Repr

/-- The inputs of tdArray.populateExpectedEntries: the element type
(zero value, kind, printable name), the model (none models the nil
pointer model case, where expectedModel is the invalid reflect.Value),
and the ArrayEntries override map as an association list with distinct
keys (a Go map). For a fixed-length array with a present model, the Go
type system forces the model list to have exactly the declared length. -/
structure ArraySpec (α : Type) where
  kind : SeqKind
  elemKind : GoKind
  zero : α
  elemName : String
  model : Option (List α)
  overrides : List (Nat × OverrideVal α)

/-- maxIndex computation of populateExpectedEntries: starts at -1 and
folds max over the override keys. -/
def maxIndexOv {α : Type} (ovs : List (Nat × OverrideVal α)) : Int :=
  ovs.foldl (fun m kv => max m (kv.1 : Int)) (-1)

def arrayLenErrMsg (len : Nat) (mi : Int) : String :=
  "array length is " ++ toString len ++ ", so cannot have #" ++ toString mi
    ++ " expected index"

def nilErrMsg (index : Nat) (elemName : String) : String :=
  "expected value of #" ++ toString index ++ " cannot be nil as items type is "
    ++ elemName

def modelConflictErrMsg (index : Nat) : String :=
  "non zero #" ++ toString index ++ " entry in model already exists in expectedEntries"

/-- The `for index, expectedValue := range expectedEntries` loop of
populateExpectedEntries: each override is validated (nil only for
nilable element kinds) and written into its slot. -/
def applyOverrides {α : Type} (elemKind : GoKind) (z : α) (elemName : String) :
    List (Nat × OverrideVal α) → List (Option α) → Except String (List (Option α))
  | [], entries => .ok entries
  | (index, ov) :: rest, entries =>
    match ov with
    | .onil =>
      if nilableKind elemKind then
        applyOverrides elemKind z elemName rest (listSet entries index (some z))
      else
        .error (nilErrMsg index elemName)
    | .oval v =>
      applyOverrides elemKind z elemName rest (listSet entries index (some v))

/-- The `for index := expectedModel.Len() - 1; index >= 0; index--` loop
of populateExpectedEntries: fuel n processes index n-1 first, exactly in
source order. An index already claimed by the override map must hold the
zero value in the model, otherwise construction fails; other indexes
receive the model value. -/
def modelLoop {α : Type} [DecidableEq α] (z : α) (keys : List Nat) (l : List α) :
    Nat → List (Option α) → Except String (List (Option α))
  | 0, entries => .ok entries
  | n + 1, entries =>
    if n ∈ keys then
      if l.getD n z ≠ z then .error (modelConflictErrMsg n)
      else modelLoop z keys l n entries
    else
      modelLoop z keys l n (listSet entries n (some (l.getD n z)))

/-- The trailing `for ; index < numEntries; index++` zero-fill loop of
populateExpectedEntries, from start (inclusive) to stop (exclusive). -/
def zeroFillAux {α : Type} (z : α) (keys : List Nat) :
    Nat → Nat → List (Option α) → List (Option α)
  | _, 0, entries => entries
  | index, n + 1, entries =>
    zeroFillAux z keys (index + 1) n
      (if index ∈ keys then entries else listSet entries index (some z))

def zeroFill {α : Type} (z : α) (keys : List Nat) (start stop : Nat)
    (entries : List (Option α)) : List (Option α) :=
  zeroFillAux z keys start (stop - start) entries

/-- numEntries of the Slice case of populateExpectedEntries: maxIndex+1,
extended to the model's length when a (non-nil-pointer) model is given. -/
def sliceNumEntries {α : Type} (s : ArraySpec α) : Nat :=
  match s.model with
  | some l => max (maxIndexOv s.overrides + 1).toNat l.length
  | none => (maxIndexOv s.overrides + 1).toNat

/-- tdArray.populateExpectedEntries (td_array.go). Entries are
Option-valued: none models an invalid reflect.Value slot (only reachable
through the nil-model cases). Control flow follows the source: array
length check, override application, model sweep (with the non-nil-array
early return), nil-slice early return, then the zero-fill loop. -/
def populateEntries {α : Type} [DecidableEq α] (s : ArraySpec α) :
    Except String (List (Option α)) :=
  match s.kind with
  | .array len =>
    if (len : Int) ≤ maxIndexOv s.overrides then
      .error (arrayLenErrMsg len (maxIndexOv s.overrides))
    else
      match applyOverrides s.elemKind s.zero s.elemName s.overrides
          (List.replicate len none) with
      | .error e => .error e
      | .ok entries1 =>
        match s.model with
        | some l =>
          modelLoop s.zero (s.overrides.map Prod.fst) l l.length entries1
        | none =>
          .ok (zeroFill s.zero (s.overrides.map Prod.fst) 0 len entries1)
  | .slice =>
    match applyOverrides s.elemKind s.zero s.elemName s.overrides
        (List.replicate (sliceNumEntries s) none) with
    | .error e => .error e
    | .ok entries1 =>
      match s.model with
      | some l =>
        match modelLoop s.zero (s.overrides.map Prod.fst) l l.length entries1 with
        | .error e => .error e
        | .ok entries2 =>
          .ok (zeroFill s.zero (s.overrides.map Prod.fst) l.length
            (sliceNumEntries s) entries2)
      | none => .ok entries1

/-- The errors tdArray.Match can produce (or pass along). `boolean` is
ctxerr.BooleanError, the sentinel returned in boolean-only mode;
`elemMismatch` stands for the error a sub-comparison of one element
reports (deepValueEqual is outside the provided sources). -/
inductive ArrErr (α : Type) where
  | boolean
  | expectedOutOfRange (index : Nat)
  | elemMismatch (index : Nat) (got : α) (expected : Option α)
  | gotOutOfRange (index : Nat)
  deriving DecidableEq, Repr

/-- deepValueEqual specialised to a plain (non-operator) expected entry:
deep equality of same-typed values; an invalid expected slot never
equals a valid got value. Failure does not depend on the boolean-only
flag, which only selects the error representation. -/
def dveEntry {α : Type} [DecidableEq α] (be : Bool) (index : Nat) (got : α)
    (e : Option α) : Option (ArrErr α) :=
  match e with
  | some v =>
    if got = v then none
    else some (if be then .boolean else .elemMismatch index got (some v))
  | none => some (if be then .boolean else .elemMismatch index got none)

/-- The `for index, expectedValue := range a.expectedEntries` loop of
tdArray.Match: out-of-range got is an immediate error, and the first
failing sub-comparison is returned as-is. -/
def arrLoop {α : Type} [Inhabited α]
    (dve : Bool → Nat → α → Option α → Option (ArrErr α)) (be : Bool)
    (got : List α) : Nat → List (Option α) → Option (ArrErr α)
  | _, [] => none
  | index, e :: rest =>
    if got.length ≤ index then
      if be then some .boolean else some (.expectedOutOfRange index)
    else
      match dve be index (got.getD index default) e with
      | some err => some err
      | none => arrLoop dve be got (index + 1) rest

/-- tdArray.Match (td_array.go), after the checkPtr/checkType guards
(tdExpectedType, outside the provided sources) have succeeded, which
they do whenever got has the model's exact type: element loop, then the
got-longer-than-expected check. -/
def tdArrayMatch {α : Type} [Inhabited α]
    (dve : Bool → Nat → α → Option α → Option (ArrErr α)) (be : Bool)
    (entries : List (Option α)) (got : List α) : Option (ArrErr α) :=
  match arrLoop dve be got 0 entries with
  | some err => some err
  | none =>
    if entries.length < got.length then
      if be then some .boolean else some (.gotOutOfRange entries.length)
    else none

/-- The errors the tdRe code paths can produce. `capturesMismatch`
stands for the error reported by the recursive deepValueEqual call on
the flattened captured groups. -/
inductive ReErr where
  | boolean
  | doesNotMatchRegexp (got : String) (pattern : String)
  | badSliceType (elemKind : String)
  | badType (typeName : String)
  | capturesMismatch
  deriving DecidableEq, Repr

/-- A tdRe operator. The Go regexp engine is external (regexp package),
so the compiled pattern is embedded as its relevant capabilities; the
captures field, when present, is the denotation of
`deepValueEqual(ctx', flattenedCaptures, r.captures)` for the stored
captures expectation (needCaptures ⇔ captures.isSome). numMatches is 1
for Re and -1 for ReAll, passed verbatim to the FindAll calls. -/
structure TdReOp where
  pattern : String
  matchStringFn : String → Bool
  findAllStringSubmatchFn : String → Int → List (List String)
  matchBytesFn : List Nat → Bool
  findAllSubmatchFn : List Nat → Int → List (List (List Nat))
  captures : Option (Bool → List String → Option ReErr)
  numMatches : Int

/-- Go's string([]byte) conversion used when casting captured byte
groups to strings. -/
def byteStr (b : List Nat) : String :=
  String.mk (b.map Char.ofNat)

/-- tdRe.doesNotMatch: BooleanError in boolean-only mode, otherwise the
"does not match Regexp" error carrying got and the pattern text. -/
def reDoesNotMatch (pattern : String) (be : Bool) (got : String) : Option ReErr :=
  if be then some .boolean else some (.doesNotMatchRegexp got pattern)

/-- tdRe.matchBool: success on a positive regexp result, otherwise
doesNotMatch. -/
def reMatchBool (pattern : String) (be : Bool) (got : String) (result : Bool) :
    Option ReErr :=
  if result then none else reDoesNotMatch pattern be got

/-- tdRe.matchStringCaptures: zero matches is the doesNotMatch error;
otherwise every captured group (set[1:]) of every match, in match order
then group order, is flattened into one sequence handed to the
dispatcher (tdRe.matchCaptures). The source builds either a []string or
a []interface{} of the same strings depending on the captures
expectation type; both carry exactly this flattened sequence. -/
def reMatchStringCaptures (pattern : String)
    (cap : Bool → List String → Option ReErr) (be : Bool) (got : String)
    (result : List (List String)) : Option ReErr :=
  if result.isEmpty then reDoesNotMatch pattern be got
  else cap be (result.flatMap (List.drop 1))

/-- tdRe.matchByteCaptures: as the string version, with each captured
byte group cast to a string. -/
def reMatchByteCaptures (pattern : String)
    (cap : Bool → List String → Option ReErr) (be : Bool) (got : List Nat)
    (result : List (List (List Nat))) : Option ReErr :=
  if result.isEmpty then reDoesNotMatch pattern be (byteStr got)
  else cap be ((result.flatMap (List.drop 1)).map byteStr)

/-- The shapes a got value can take for tdRe.Match's kind dispatch:
a string (any string-kinded value), a []uint8 slice, a slice of any
other element kind, or any other value seen through its interface,
which may expose an error view and/or a fmt.Stringer view. -/
inductive ReGot where
  | rstr (s : String)
  | rbytes (b : List Nat)
  | rbadSlice (elemKind : String)
  | riface (errView : Option String) (strView : Option String) (typeName : String)

/-- The string tail of tdRe.Match shared by the string case and the
error/Stringer cases. -/
def tdReMatchStr (r : TdReOp) (be : Bool) (s : String) : Option ReErr :=
  match r.captures with
  | some cap =>
    reMatchStringCaptures r.pattern cap be s
      (r.findAllStringSubmatchFn s r.numMatches)
  | none => reMatchBool r.pattern be s (r.matchStringFn s)

/-- tdRe.Match (td_re.go): kind dispatch over got. Strings and []uint8
get the pattern applied (with or without captures); a non-[]uint8 slice
is the "bad slice type" error; any other value is matched through its
error view if present, else its Stringer view, else it is the
"bad type" error. -/
def tdReMatch (r : TdReOp) (be : Bool) (got : ReGot) : Option ReErr :=
  match got with
  | .rstr s => tdReMatchStr r be s
  | .rbytes b =>
    match r.captures with
    | some cap =>
      reMatchByteCaptures r.pattern cap be b (r.findAllSubmatchFn b r.numMatches)
    | none => reMatchBool r.pattern be (byteStr b) (r.matchBytesFn b)
  | .rbadSlice elemKind =>
    if be then some .boolean else some (.badSliceType elemKind)
  | .riface errView strView typeName =>
    match errView with
    | some s => tdReMatchStr r be s
    | none =>
      match strView with
      | some s => tdReMatchStr r be s
      | none =>
        if be then some .boolean else some (.badType typeName)

/-- The comparison-state fields of ctxerr.Context relevant to the
embedded Match functions: the boolean-only flag and the laxness flag. -/
structure Ctx where
  booleanError : Bool
  beLax : Bool
  deriving DecidableEq, Repr

/-- The generic Go value obtained by json.Unmarshal into an interface{}:
null, bool, number (float64; the numeric payload is abstracted to Int,
no claim depends on its arithmetic), string, array or object. A JSON
null unmarshals to a nil interface, whose reflect.Value is invalid:
isNull below is the embedding of `!got.IsValid()`. -/
inductive JVal where
  | jnull
  | jbool (b : Bool)
  | jnum (v : Int)
  | jstr (s : String)
  | jarr (elems : List JVal)
  | jobj (entries : List (String × JVal))

def JVal.isNull : JVal → Bool
  | .jnull => true
  | _ => false

def JVal.isObj : JVal → Bool
  | .jobj _ => true
  | _ => false

/-- The errors of the JSON operators' Match paths. `boolean` is
ctxerr.BooleanError; `marshalFailed` is the "json.Marshal failed" error
with the encoder's message as diagnostic summary; `nullInsteadOfMapping`
is the tdMapJSON.Match nil-case error (got null, expected non-null);
`notAMapping`, `extraKey`, `missingKey` and `keyMismatch` belong to the
spec-modelled map matching; `subError` stands for an error reported by a
recursive dispatcher call. -/
inductive JErr where
  | boolean
  | marshalFailed (msg : String)
  | nullInsteadOfMapping
  | notAMapping
  | extraKey (key : String)
  | missingKey (key : String)
  | keyMismatch (key : String)
  | subError
  deriving DecidableEq, Repr

/-- jsonify (td_json.go): the canonical encode/decode round trip applied
to got. The external encoding/json step (json.Marshal then
json.Unmarshal into interface{}) is the rt parameter: .error carries a
Marshal failure message, .ok the decoded generic value (Unmarshal cannot
fail after a successful Marshal). The dark.GetInterface step, which can
only fail on unexported struct fields in safe mode, is outside the
provided sources and is folded into rt. A Marshal failure is
BooleanError in boolean-only mode, else the "json.Marshal failed" error
with the encoder message as summary. -/
def jsonify {γ : Type} (rt : γ → Except String JVal) (be : Bool) (g : γ) :
    Except JErr JVal :=
  match rt g with
  | .error msg => .error (if be then .boolean else .marshalFailed msg)
  | .ok v => .ok v

/-- tdJSON.Match (td_json.go): got goes through gotViaJSON (jsonify)
first — a failure there is collected and returned — then BeLax is forced
on and the dispatcher compares the round-tripped got against the
unmarshalled expectation. The dispatcher deepValueEqual is outside the
provided sources and is the dve parameter. -/
def tdJSONMatch {γ ε : Type} (rt : γ → Except String JVal)
    (dve : Ctx → JVal → ε → Option JErr) (expected : ε) (ctx : Ctx) (g : γ) :
    Option JErr :=
  match jsonify rt ctx.booleanError g with
  | .error e => some e
  | .ok got => dve { ctx with beLax := true } got expected

/-- tdMapJSON.Match (td_json.go): gotViaJSON first, then the nil case
(invalid round-tripped got, i.e. JSON null) is the dedicated
"values differ: null instead of non-null" error, then BeLax is forced on
and the map comparison tdMap.match runs. tdMap.match is outside the
provided sources and is the mm parameter. -/
def tdMapJSONMatch {γ : Type} (rt : γ → Except String JVal)
    (mm : Ctx → JVal → Option JErr) (ctx : Ctx) (g : γ) : Option JErr :=
  match jsonify rt ctx.booleanError g with
  | .error e => some e
  | .ok got =>
    if got.isNull then
      some (if ctx.booleanError then .boolean else .nullInsteadOfMapping)
    else
      mm { ctx with beLax := true } got

/-- The sub/super mode of a tdMapJSON operator (tdMap kind field). -/
inductive MapKind where
  | subMap
  | superMap
  deriving DecidableEq, Repr

/-- Modelled from the spec: the sub-mode direction of the repository's
tdMap.match (td_map.go, not among the provided sources). Every key
present in got must exist in expected and match; a got key absent from
expected is an error; expected keys absent from got are tolerated.
Value comparison is the dispatcher, abstracted to veq. -/
def mapSubMatch (veq : JVal → JVal → Bool) (be : Bool)
    (expected : List (String × JVal)) :
    List (String × JVal) → Option JErr
  | [] => none
  | (k, v) :: rest =>
    match expected.lookup k with
    | none => some (if be then .boolean else .extraKey k)
    | some ev =>
      if veq v ev then mapSubMatch veq be expected rest
      else some (if be then .boolean else .keyMismatch k)

/-- Modelled from the spec: the super-mode direction of the repository's
tdMap.match (td_map.go, not among the provided sources). Every key
present in expected must exist in got and match; got keys absent from
expected are tolerated. -/
def mapSuperMatch (veq : JVal → JVal → Bool) (be : Bool)
    (got : List (String × JVal)) :
    List (String × JVal) → Option JErr
  | [] => none
  | (k, ev) :: rest =>
    match got.lookup k with
    | none => some (if be then .boolean else .missingKey k)
    | some v =>
      if veq v ev then mapSuperMatch veq be got rest
      else some (if be then .boolean else .keyMismatch k)

/-- Modelled from the spec: the repository's tdMap.match (td_map.go, not
among the provided sources). The value under test must classify as a
keyed mapping (records were already unwrapped into one by the JSON round
trip); a non-mapping value is the distinct, dedicated
"expected non-null mapping" mismatch; a mapping is checked with the
sub/superset rules of spec section 4.2. -/
def tdMapMatchModel (veq : JVal → JVal → Bool) (kind : MapKind)
    (expected : List (String × JVal)) (ctx : Ctx) (got : JVal) : Option JErr :=
  match got with
  | .jobj gotEntries =>
    match kind with
    | .subMap => mapSubMatch veq ctx.booleanError expected gotEntries
    | .superMap => mapSuperMatch veq ctx.booleanError gotEntries expected
  | _ => some (if ctx.booleanError then .boolean else .notAMapping)

/-- The spec's resolution rule, stated in the spec's own words: for
every index, the effective expected value is the override if present,
else the model's value at that index if the model covers it, else the
kind's zero value. This definition follows the SPEC text; the theorems
below compare populateEntries (translated from the source) against it. -/
def specEffectiveExpected {α : Type} (s : ArraySpec α) (l : List α) (i : Nat) : α :=
  match List.lookup i s.overrides with
  | some ov => ovInterp s.zero ov
  | none => if i < l.length then l.getD i s.zero else s.zero

/-- deepValueEqual of flattened captures against a literal []string
captures expectation (plain deep equality of the sequences). -/
def litCaptures (expected : List String) : Bool → List String → Option ReErr :=
  fun be caps =>
    if caps = expected then none
    else if be then some .boolean else some .capturesMismatch

/-- Multiset equality of two lists, the semantics of the Bag operator
(outside the provided sources): same items in any order. -/
def bagElems {β : Type} [DecidableEq β] : List β → List β → Bool
  | [], l => l.isEmpty
  | a :: as, l => l.contains a && bagElems as (l.erase a)

/-- deepValueEqual of flattened captures against a Bag (unordered)
captures expectation. -/
def bagCaptures (expected : List String) : Bool → List String → Option ReErr :=
  fun be caps =>
    if bagElems caps expected then none
    else if be then some .boolean else some .capturesMismatch

/-- The spec's sparse-array example: Array with model [3]int being 0,14
(hence the model sequence 0,14,0) and overrides 0↦12, 2↦17. -/
def exC1Spec : ArraySpec Int where
  kind := .array 3
  elemKind := .kInt
  zero := 0
  elemName := "int"
  model := some [0, 14, 0]
  overrides := [(0, .oval 12), (2, .oval 17)]

/-- An Array over [3]int with an override at index 3, out of the fixed
length. -/
def exC8Spec : ArraySpec Int where
  kind := .array 3
  elemKind := .kInt
  zero := 0
  elemName := "int"
  model := some [0, 14, 0]
  overrides := [(0, .oval 12), (3, .oval 5)]

/-- A Slice over []int (a non-nilable element kind) with a nil override. -/
def exC10BadSpec : ArraySpec Int where
  kind := .slice
  elemKind := .kInt
  zero := 0
  elemName := "int"
  model := some []
  overrides := [(1, .onil)]

/-- A Slice over []*int (a nilable element kind) with a nil override;
the typed nil pointer zero value is modelled as the zero element. -/
def exC10GoodSpec : ArraySpec Int where
  kind := .slice
  elemKind := .kPtr
  zero := 0
  elemName := "*int"
  model := some []
  overrides := [(1, .onil)]

/-- The compiled pattern of the spec's captures example, with the
external regexp engine's outputs on the relevant inputs:
FindAllStringSubmatch applied once to "John Doe" yields one match
carrying the two groups. Captures expectation is the literal sequence
"John", "Doe". -/
def exReJohn : TdReOp where
  pattern := "^(\\w+) (\\w+)$"
  matchStringFn := fun s => s = "John Doe"
  findAllStringSubmatchFn := fun s n =>
    if s = "John Doe" ∧ n = 1 then [["John Doe", "John", "Doe"]] else []
  matchBytesFn := fun _ => false
  findAllSubmatchFn := fun _ _ => []
  captures := some (litCaptures ["John", "Doe"])
  numMatches := 1

/-- The ReAll token pattern of the spec's example, with the engine's
output on "a1 b2": two matches, one captured group per token. Captures
expectation is an unordered bag holding "b2", "a1". -/
def exReAllBag : TdReOp where
  pattern := "(\\w+)(?: |$)"
  matchStringFn := fun s => s = "a1 b2"
  findAllStringSubmatchFn := fun s n =>
    if s = "a1 b2" ∧ n = -1 then [["a1 ", "a1"], ["b2", "b2"]] else []
  matchBytesFn := fun _ => false
  findAllSubmatchFn := fun _ _ => []
  captures := some (bagCaptures ["b2", "a1"])
  numMatches := -1

/-- A regexp that the string "nope" does not match, with a captures
expectation: the engine returns no match for it. -/
def exReNope : TdReOp where
  pattern := "^(\\w+) (\\w+)$"
  matchStringFn := fun s => s = "John Doe"
  findAllStringSubmatchFn := fun s n =>
    if s = "John Doe" ∧ n = 1 then [["John Doe", "John", "Doe"]] else []
  matchBytesFn := fun _ => false
  findAllSubmatchFn := fun _ _ => []
  captures := some (litCaptures ["John", "Doe"])
  numMatches := 1

/-- A captures-free Re operator used to instantiate generic statements. -/
def exReTriv : TdReOp where
  pattern := "x"
  matchStringFn := fun s => s = "x"
  findAllStringSubmatchFn := fun _ _ => []
  matchBytesFn := fun _ => false
  findAllSubmatchFn := fun _ _ => []
  captures := none
  numMatches := 1

/-- A canonical round trip usable on already-decoded values: always
encodable, decodes to itself. -/
def rtId : JVal → Except String JVal := fun v => .ok v

/-- A two-point got type whose true point cannot be JSON-marshalled;
models a value of an unsupported type such as a channel. -/
def rtEnc : Bool → Except String JVal :=
  fun g => if g then .error "json: unsupported type: chan int" else .ok (.jnum 5)

/-- A dispatcher denotation that succeeds exactly under laxness,
observing whether BeLax was forced on. -/
def dveLaxProbe : Ctx → JVal → Int → Option JErr :=
  fun c _ _ => if c.beLax then none else some .subError

/-- The tdArray operator state: the fields of the tdArray struct
(td_array.go) that Match can read. The expected element type itself is
kept as its printable name. -/
structure TdArrayOp (α : Type) where
  isPtr : Bool
  expectedTypeName : String
  expectedEntries : List (Option α)

/-- State-threaded form of the tdArray.Match element loop: the operator
value is threaded through every step, mirroring that the source loop
only reads the receiver and never assigns to its fields. -/
def arrLoopSt {α : Type} [Inhabited α]
    (dve : Bool → Nat → α → Option α → Option (ArrErr α)) (be : Bool)
    (a : TdArrayOp α) (got : List α) :
    Nat → List (Option α) → TdArrayOp α × Option (ArrErr α)
  | _, [] => (a, none)
  | index, e :: rest =>
    if got.length ≤ index then
      (a, if be then some .boolean else some (.expectedOutOfRange index))
    else
      match dve be index (got.getD index default) e with
      | some err => (a, some err)
      | none => arrLoopSt dve be a got (index + 1) rest

/-- State-threaded tdArray.Match: reads expectedEntries from the
operator, threads the operator through the loop, reads it again for the
final length check, and returns it with the result. -/
def tdArrayMatchSt {α : Type} [Inhabited α]
    (dve : Bool → Nat → α → Option α → Option (ArrErr α)) (be : Bool)
    (a : TdArrayOp α) (got : List α) : TdArrayOp α × Option (ArrErr α) :=
  match arrLoopSt dve be a got 0 a.expectedEntries with
  | (a2, some err) => (a2, some err)
  | (a2, none) =>
    if a2.expectedEntries.length < got.length then
      (a2, if be then some .boolean
        else some (.gotOutOfRange a2.expectedEntries.length))
    else (a2, none)

/-- State-threaded string tail of tdRe.Match. -/
def tdReMatchStrSt (r : TdReOp) (be : Bool) (s : String) :
    TdReOp × Option ReErr :=
  match r.captures with
  | some cap =>
    (r, reMatchStringCaptures r.pattern cap be s
      (r.findAllStringSubmatchFn s r.numMatches))
  | none => (r, reMatchBool r.pattern be s (r.matchStringFn s))

/-- State-threaded tdRe.Match: every dispatch branch only reads the
receiver, as in the source, and hands it back unchanged. -/
def tdReMatchSt (r : TdReOp) (be : Bool) (got : ReGot) :
    TdReOp × Option ReErr :=
  match got with
  | .rstr s => tdReMatchStrSt r be s
  | .rbytes b =>
    match r.captures with
    | some cap =>
      (r, reMatchByteCaptures r.pattern cap be b
        (r.findAllSubmatchFn b r.numMatches))
    | none => (r, reMatchBool r.pattern be (byteStr b) (r.matchBytesFn b))
  | .rbadSlice elemKind =>
    (r, if be then some .boolean else some (.badSliceType elemKind))
  | .riface errView strView typeName =>
    match errView with
    | some s => tdReMatchStrSt r be s
    | none =>
      match strView with
      | some s => tdReMatchStrSt r be s
      | none => (r, if be then some .boolean else some (.badType typeName))

/-- The tdJSON operator state: its unmarshalled expectation. -/
structure TdJSONOp (ε : Type) where
  expected : ε

/-- State-threaded tdJSON.Match. The BeLax write is on the local ctx
value (a by-value parameter in the source), not on the operator. -/
def tdJSONMatchSt {γ ε : Type} (rt : γ → Except String JVal)
    (dve : Ctx → JVal → ε → Option JErr) (j : TdJSONOp ε) (ctx : Ctx) (g : γ) :
    TdJSONOp ε × Option JErr :=
  match jsonify rt ctx.booleanError g with
  | .error e => (j, some e)
  | .ok got => (j, dve { ctx with beLax := true } got j.expected)

/-- The tdMapJSON operator state: its kind and unmarshalled expectation. -/
structure TdMapJSONOp where
  kind : MapKind
  expected : List (String × JVal)

/-- State-threaded tdMapJSON.Match; the inner tdMap.match (outside the
provided sources) is parametrized by the operator's read-only fields. -/
def tdMapJSONMatchSt {γ : Type} (rt : γ → Except String JVal)
    (mm : MapKind → List (String × JVal) → Ctx → JVal → Option JErr)
    (m : TdMapJSONOp) (ctx : Ctx) (g : γ) : TdMapJSONOp × Option JErr :=
  match jsonify rt ctx.booleanError g with
  | .error e => (m, some e)
  | .ok got =>
    if got.isNull then
      (m, some (if ctx.booleanError then .boolean else .nullInsteadOfMapping))
    else
      (m, mm m.kind m.expected { ctx with beLax := true } got)

theorem listSet_length {β : Type} (l : List β) (n : Nat) (v : β) :
    (listSet l n v).length = l.length := by
  induction l generalizing n with
  | nil => rfl
  | cons x xs ih =>
    cases n with
    | zero => rfl
    | succ m => simp [listSet, ih]

theorem listSet_get_eq {β : Type} (l : List β) (n : Nat) (v : β)
    (h : n < l.length) : (listSet l n v).get? n = some v := by
  induction l generalizing n with
  | nil => simp at h
  | cons x xs ih =>
    cases n with
    | zero => rfl
    | succ m =>
      simp only [List.length_cons] at h
      exact ih m (Nat.lt_of_succ_lt_succ h)

theorem listSet_get_ne {β : Type} (l : List β) (n m : Nat) (v : β)
    (h : m ≠ n) : (listSet l n v).get? m = l.get? m := by
  induction l generalizing n m with
  | nil => rfl
  | cons x xs ih =>
    cases n with
    | zero =>
      cases m with
      | zero => exact absurd rfl h
      | succ k => rfl
    | succ n' =>
      cases m with
      | zero => rfl
      | succ m' =>
        simp only [listSet, List.get?_cons_succ]
        exact ih n' m' (fun he => h (congrArg Nat.succ he))

theorem foldl_max_init_le {α : Type} (ovs : List (Nat × OverrideVal α)) (init : Int) :
    init ≤ ovs.foldl (fun m kv => max m (kv.1 : Int)) init := by
  induction ovs generalizing init with
  | nil => exact le_refl _
  | cons kv rest ih =>
    exact le_trans (le_max_left init (kv.1 : Int)) (ih (max init (kv.1 : Int)))

theorem mem_le_maxIndexOv {α : Type} (ovs : List (Nat × OverrideVal α))
    (kv : Nat × OverrideVal α) (h : kv ∈ ovs) : (kv.1 : Int) ≤ maxIndexOv ovs := by
  unfold maxIndexOv
  generalize (-1 : Int) = init
  induction ovs generalizing init with
  | nil => simp at h
  | cons hd rest ih =>
    cases h with
    | head =>
      exact le_trans (le_max_right init (kv.1 : Int))
        (foldl_max_init_le rest (max init (kv.1 : Int)))
    | tail _ hmem => exact ih hmem _

theorem neg_one_le_maxIndexOv {α : Type} (ovs : List (Nat × OverrideVal α)) :
    (-1 : Int) ≤ maxIndexOv ovs :=
  foldl_max_init_le ovs (-1)

theorem lookup_eq_none_of_not_mem {α : Type} (ovs : List (Nat × OverrideVal α))
    (i : Nat) (h : i ∉ ovs.map Prod.fst) : List.lookup i ovs = none := by
  induction ovs with
  | nil => rfl
  | cons kv rest ih =>
    simp only [List.map_cons, List.mem_cons] at h
    push_neg at h
    simp only [List.lookup]
    rw [beq_eq_false_iff_ne.mpr h.1]
    exact ih h.2

theorem mem_keys_of_lookup_some {α : Type} (ovs : List (Nat × OverrideVal α))
    (i : Nat) (ov : OverrideVal α) (h : List.lookup i ovs = some ov) :
    i ∈ ovs.map Prod.fst := by
  induction ovs with
  | nil => simp [List.lookup] at h
  | cons kv rest ih =>
    simp only [List.lookup] at h
    by_cases hik : i = kv.1
    · simp [hik]
    · rw [beq_eq_false_iff_ne.mpr hik] at h
      simp only [List.map_cons, List.mem_cons]
      exact Or.inr (ih h)

theorem applyOverrides_length {α : Type} (ek : GoKind) (z : α) (en : String)
    (ovs : List (Nat × OverrideVal α)) (entries entries' : List (Option α))
    (h : applyOverrides ek z en ovs entries = .ok entries') :
    entries'.length = entries.length := by
  induction ovs generalizing entries with
  | nil =>
    simp only [applyOverrides, Except.ok.injEq] at h
    rw [h]
  | cons kv rest ih =>
    obtain ⟨k, ov⟩ := kv
    cases ov with
    | onil =>
      simp only [applyOverrides] at h
      split at h
      · rw [ih _ h, listSet_length]
      · cases h
    | oval v =>
      simp only [applyOverrides] at h
      rw [ih _ h, listSet_length]

theorem applyOverrides_get {α : Type} (ek : GoKind) (z : α) (en : String)
    (ovs : List (Nat × OverrideVal α)) (entries entries' : List (Option α))
    (hnodup : (ovs.map Prod.fst).Nodup)
    (hbound : ∀ kv ∈ ovs, kv.1 < entries.length)
    (h : applyOverrides ek z en ovs entries = .ok entries') (i : Nat) :
    entries'.get? i =
      match List.lookup i ovs with
      | some ov => some (some (ovInterp z ov))
      | none => entries.get? i := by
  induction ovs generalizing entries with
  | nil =>
    simp only [applyOverrides, Except.ok.injEq] at h
    rw [← h]
    rfl
  | cons kv rest ih =>
    obtain ⟨k, ov⟩ := kv
    simp only [List.map_cons, List.nodup_cons] at hnodup
    have hk : k < entries.length := hbound (k, ov) (List.mem_cons_self _ _)
    have hrest :
        ∀ w : α, applyOverrides ek z en rest (listSet entries k (some w)) = .ok entries' →
        entries'.get? i =
          match List.lookup i rest with
          | some o => some (some (ovInterp z o))
          | none => (listSet entries k (some w)).get? i := by
      intro w hw
      exact ih (listSet entries k (some w)) hnodup.2
        (fun kv hm => by
          rw [listSet_length]
          exact hbound kv (List.mem_cons_of_mem _ hm)) hw
    have hcase :
        ∃ w : α, applyOverrides ek z en rest (listSet entries k (some w)) = .ok entries'
          ∧ w = ovInterp z ov := by
      cases ov with
      | onil =>
        simp only [applyOverrides] at h
        split at h
        · exact ⟨z, h, rfl⟩
        · cases h
      | oval v =>
        simp only [applyOverrides] at h
        exact ⟨v, h, rfl⟩
    obtain ⟨w, hw, hwv⟩ := hcase
    rw [hrest w hw]
    by_cases hik : i = k
    · subst hik
      rw [lookup_eq_none_of_not_mem rest i hnodup.1]
      simp only [List.lookup, beq_self_eq_true]
      rw [listSet_get_eq _ _ _ hk, hwv]
    · simp only [List.lookup]
      rw [beq_eq_false_iff_ne.mpr hik]
      cases hl : List.lookup i rest with
      | some o => rfl
      | none => exact listSet_get_ne _ _ _ _ hik

theorem modelLoop_length {α : Type} [DecidableEq α] (z : α) (keys : List Nat)
    (l : List α) (fuel : Nat) (entries entries' : List (Option α))
    (h : modelLoop z keys l fuel entries = .ok entries') :
    entries'.length = entries.length := by
  induction fuel generalizing entries with
  | zero =>
    simp only [modelLoop, Except.ok.injEq] at h
    rw [h]
  | succ n ih =>
    simp only [modelLoop] at h
    by_cases hk : n ∈ keys
    · rw [if_pos hk] at h
      split at h
      · cases h
      · exact ih _ h
    · rw [if_neg hk] at h
      rw [ih _ h, listSet_length]

theorem modelLoop_get {α : Type} [DecidableEq α] (z : α) (keys : List Nat)
    (l : List α) (fuel : Nat) (entries entries' : List (Option α))
    (hb : fuel ≤ entries.length)
    (h : modelLoop z keys l fuel entries = .ok entries') (i : Nat) :
    entries'.get? i =
      if i < fuel ∧ i ∉ keys then some (some (l.getD i z))
      else entries.get? i := by
  induction fuel generalizing entries with
  | zero =>
    simp only [modelLoop, Except.ok.injEq] at h
    rw [← h]
    simp
  | succ n ih =>
    simp only [modelLoop] at h
    by_cases hk : n ∈ keys
    · rw [if_pos hk] at h
      split at h
      · cases h
      · rw [ih entries (Nat.le_of_succ_le hb) h]
        by_cases hc : i < n ∧ i ∉ keys
        · rw [if_pos hc, if_pos ⟨Nat.lt_succ_of_lt hc.1, hc.2⟩]
        · rw [if_neg hc, if_neg]
          intro ⟨hlt, hnk⟩
          apply hc
          refine ⟨?_, hnk⟩
          rcases Nat.lt_succ_iff_lt_or_eq.mp hlt with h1 | h1
          · exact h1
          · exact absurd (h1 ▸ hk) hnk
    · rw [if_neg hk] at h
      have hblen : n < entries.length := Nat.lt_of_succ_le hb
      rw [ih (listSet entries n (some (l.getD n z)))
        (by rw [listSet_length]; exact Nat.le_of_succ_le hb) h]
      by_cases hc : i < n ∧ i ∉ keys
      · rw [if_pos hc, if_pos ⟨Nat.lt_succ_of_lt hc.1, hc.2⟩]
      · by_cases hin : i = n
        · subst hin
          rw [if_neg hc, if_pos ⟨Nat.lt_succ_self _, hk⟩]
          exact listSet_get_eq _ _ _ hblen
        · rw [if_neg hc, if_neg]
          · exact listSet_get_ne _ _ _ _ hin
          · intro ⟨hlt, hnk⟩
            apply hc
            refine ⟨?_, hnk⟩
            rcases Nat.lt_succ_iff_lt_or_eq.mp hlt with h1 | h1
            · exact h1
            · exact absurd h1 hin

theorem zeroFillAux_length {α : Type} (z : α) (keys : List Nat)
    (start cnt : Nat) (entries : List (Option α)) :
    (zeroFillAux z keys start cnt entries).length = entries.length := by
  induction cnt generalizing start entries with
  | zero => rfl
  | succ n ih =>
    simp only [zeroFillAux]
    rw [ih]
    split
    · rfl
    · rw [listSet_length]

theorem zeroFillAux_get {α : Type} (z : α) (keys : List Nat)
    (start cnt : Nat) (entries : List (Option α))
    (hb : start + cnt ≤ entries.length) (i : Nat) :
    (zeroFillAux z keys start cnt entries).get? i =
      if start ≤ i ∧ i < start + cnt ∧ i ∉ keys then some (some z)
      else entries.get? i := by
  induction cnt generalizing start entries with
  | zero =>
    simp only [zeroFillAux]
    rw [if_neg]
    intro ⟨h1, h2, _⟩
    omega
  | succ n ih =>
    simp only [zeroFillAux]
    by_cases hk : start ∈ keys
    · rw [if_pos hk, ih (start + 1) entries (by omega)]
      by_cases hc : start + 1 ≤ i ∧ i < start + 1 + n ∧ i ∉ keys
      · rw [if_pos hc, if_pos ⟨by omega, by omega, hc.2.2⟩]
      · rw [if_neg hc, if_neg]
        intro ⟨h1, h2, h3⟩
        apply hc
        have : start ≠ i := fun he => h3 (he ▸ hk)
        exact ⟨by omega, by omega, h3⟩
    · rw [if_neg hk, ih (start + 1) _ (by rw [listSet_length]; omega)]
      have hsl : start < entries.length := by omega
      by_cases hc : start + 1 ≤ i ∧ i < start + 1 + n ∧ i ∉ keys
      · rw [if_pos hc, if_pos ⟨by omega, by omega, hc.2.2⟩]
      · by_cases his : i = start
        · subst his
          rw [if_neg hc, if_pos ⟨le_refl _, by omega, hk⟩]
          exact listSet_get_eq _ _ _ hsl
        · rw [if_neg hc, if_neg]
          · exact listSet_get_ne _ _ _ _ his
          · intro ⟨h1, h2, h3⟩
            exact hc ⟨by omega, by omega, h3⟩

theorem lookup_isSome_of_mem_keys {α : Type} (ovs : List (Nat × OverrideVal α))
    (i : Nat) (h : i ∈ ovs.map Prod.fst) : (List.lookup i ovs).isSome = true := by
  induction ovs with
  | nil => simp at h
  | cons kv rest ih =>
    simp only [List.lookup]
    by_cases hik : i = kv.1
    · rw [beq_iff_eq.mpr hik]
      rfl
    · rw [beq_eq_false_iff_ne.mpr hik]
      apply ih
      simp only [List.map_cons, List.mem_cons] at h
      exact h.resolve_left hik

/-- For every Array or Slice operator built from an actual model
sequence whose construction succeeds, every slot of the expected-entries
table holds exactly the spec's effective expected value. -/
theorem populateEntries_resolution {α : Type} [DecidableEq α] (s : ArraySpec α)
    (l : List α) (entries : List (Option α))
    (hm : s.model = some l)
    (hnodup : (s.overrides.map Prod.fst).Nodup)
    (harr : ∀ len, s.kind = .array len → l.length = len)
    (hok : populateEntries s = .ok entries) :
    ∀ i, i < entries.length →
      entries.get? i = some (some (specEffectiveExpected s l i)) := by
  obtain ⟨kind, ek, z, en, model, ovs⟩ := s
  simp only at hm harr hok
  subst hm
  intro i hi
  simp only [specEffectiveExpected]
  cases kind with
  | array len =>
    have hll : l.length = len := harr len rfl
    simp only [populateEntries] at hok
    split at hok
    · simp at hok
    · rename_i hlt
      cases happ : applyOverrides ek z en ovs (List.replicate len none) with
      | error e => rw [happ] at hok; simp at hok
      | ok entries1 =>
        rw [happ] at hok
        have hlen1 : entries1.length = len := by
          have h1 := applyOverrides_length ek z en ovs _ _ happ
          simpa using h1
        have hbound : ∀ kv ∈ ovs, kv.1 < (List.replicate len (none : Option α)).length := by
          intro kv hmem
          have h1 := mem_le_maxIndexOv ovs kv hmem
          simp only [List.length_replicate]
          omega
        have hentlen : entries.length = len := by
          rw [modelLoop_length z _ l l.length entries1 entries hok, hlen1]
        have hmlget := modelLoop_get z (ovs.map Prod.fst) l l.length entries1 entries
          (by rw [hlen1, hll]) hok
        have happget := applyOverrides_get ek z en ovs _ entries1 hnodup hbound happ
        rw [hmlget i]
        by_cases hik : i ∈ ovs.map Prod.fst
        · rw [if_neg (fun hc => hc.2 hik)]
          cases hl : List.lookup i ovs with
          | none =>
            have h2 := lookup_isSome_of_mem_keys ovs i hik
            rw [hl] at h2
            simp at h2
          | some ov =>
            rw [happget i, hl]
        · have hl : List.lookup i ovs = none := lookup_eq_none_of_not_mem ovs i hik
          have hil : i < l.length := by omega
          rw [if_pos ⟨hil, hik⟩, hl]
          rw [if_pos hil]
  | slice =>
    simp only [populateEntries, sliceNumEntries] at hok
    split at hok
    · simp at hok
    · rename_i entries1 happ
      split at hok
      · simp at hok
      · rename_i entries2 hml
        simp only [Except.ok.injEq] at hok
        have hlen1 : entries1.length = max (maxIndexOv ovs + 1).toNat l.length := by
          have h1 := applyOverrides_length ek z en ovs _ _ happ
          simpa using h1
        have hlen2 : entries2.length = max (maxIndexOv ovs + 1).toNat l.length := by
          rw [modelLoop_length z _ l l.length entries1 entries2 hml, hlen1]
        have hbound : ∀ kv ∈ ovs, kv.1 <
            (List.replicate (max (maxIndexOv ovs + 1).toNat l.length)
              (none : Option α)).length := by
          intro kv hmem
          have h1 := mem_le_maxIndexOv ovs kv hmem
          simp only [List.length_replicate]
          omega
        have hll : l.length ≤ max (maxIndexOv ovs + 1).toNat l.length :=
          le_max_right _ _
        have hentlen : entries.length = max (maxIndexOv ovs + 1).toNat l.length := by
          rw [← hok]
          simp only [zeroFill]
          rw [zeroFillAux_length, hlen2]
        have happget := applyOverrides_get ek z en ovs _ entries1 hnodup hbound happ
        have hmlget := modelLoop_get z (ovs.map Prod.fst) l l.length entries1 entries2
          (by omega) hml
        have hzfget := zeroFillAux_get z (ovs.map Prod.fst) l.length
          (max (maxIndexOv ovs + 1).toNat l.length - l.length) entries2
          (by omega) i
        rw [← hok]
        simp only [zeroFill]
        rw [hzfget]
        by_cases hik : i ∈ ovs.map Prod.fst
        · rw [if_neg (fun hc => hc.2.2 hik)]
          rw [hmlget i, if_neg (fun hc => hc.2 hik)]
          cases hl : List.lookup i ovs with
          | none =>
            have h2 := lookup_isSome_of_mem_keys ovs i hik
            rw [hl] at h2
            simp at h2
          | some ov =>
            rw [happget i, hl]
        · have hl : List.lookup i ovs = none := lookup_eq_none_of_not_mem ovs i hik
          rw [hl]
          by_cases hil : i < l.length
          · rw [if_neg (fun hc => by omega), hmlget i, if_pos ⟨hil, hik⟩, if_pos hil]
          · have hin : i < max (maxIndexOv ovs + 1).toNat l.length := by omega
            rw [if_pos ⟨by omega, by omega, hik⟩, if_neg hil]

theorem modelLoop_get_key {α : Type} [DecidableEq α] (z : α) (keys : List Nat)
    (l : List α) (fuel : Nat) (entries entries' : List (Option α))
    (h : modelLoop z keys l fuel entries = .ok entries') (i : Nat) (hik : i ∈ keys) :
    entries'.get? i = entries.get? i := by
  induction fuel generalizing entries with
  | zero =>
    simp only [modelLoop, Except.ok.injEq] at h
    rw [h]
  | succ n ih =>
    simp only [modelLoop] at h
    by_cases hk : n ∈ keys
    · rw [if_pos hk] at h
      split at h
      · cases h
      · exact ih _ h
    · rw [if_neg hk] at h
      rw [ih _ h]
      exact listSet_get_ne _ _ _ _ (fun he => hk (he ▸ hik))

theorem zeroFillAux_get_key {α : Type} (z : α) (keys : List Nat)
    (start cnt : Nat) (entries : List (Option α)) (i : Nat) (hik : i ∈ keys) :
    (zeroFillAux z keys start cnt entries).get? i = entries.get? i := by
  induction cnt generalizing start entries with
  | zero => rfl
  | succ n ih =>
    simp only [zeroFillAux]
    by_cases hk : start ∈ keys
    · rw [if_pos hk, ih]
    · rw [if_neg hk, ih]
      exact listSet_get_ne _ _ _ _ (fun he => hk (he ▸ hik))

/-- Whatever the model shape (present, nil pointer, array or slice), a
successfully constructed operator holds, in the slot of each override
index, exactly that override's interpreted value. -/
theorem populateEntries_override_slot {α : Type} [DecidableEq α] (s : ArraySpec α)
    (entries : List (Option α))
    (hnodup : (s.overrides.map Prod.fst).Nodup)
    (hok : populateEntries s = .ok entries)
    (i : Nat) (ov : OverrideVal α) (hl : List.lookup i s.overrides = some ov) :
    entries.get? i = some (some (ovInterp s.zero ov)) := by
  obtain ⟨kind, ek, z, en, model, ovs⟩ := s
  simp only at hnodup hok hl ⊢
  have hik : i ∈ ovs.map Prod.fst := mem_keys_of_lookup_some ovs i ov hl
  cases kind with
  | array len =>
    simp only [populateEntries] at hok
    split at hok
    · simp at hok
    · rename_i hlt
      split at hok
      · simp at hok
      · rename_i entries1 happ
        have hbound : ∀ kv ∈ ovs, kv.1 <
            (List.replicate len (none : Option α)).length := by
          intro kv hmem
          have h1 := mem_le_maxIndexOv ovs kv hmem
          simp only [List.length_replicate]
          omega
        have happget := applyOverrides_get ek z en ovs _ entries1 hnodup hbound happ
        cases model with
        | some l =>
          rw [modelLoop_get_key z (ovs.map Prod.fst) l l.length entries1 entries
            hok i hik, happget i, hl]
        | none =>
          simp only [Except.ok.injEq] at hok
          rw [← hok]
          simp only [zeroFill]
          rw [zeroFillAux_get_key z (ovs.map Prod.fst) 0 _ entries1 i hik,
            happget i, hl]
  | slice =>
    cases model with
    | some l =>
      simp only [populateEntries, sliceNumEntries] at hok
      split at hok
      · simp at hok
      · rename_i entries1 happ
        split at hok
        · simp at hok
        · rename_i entries2 hml
          simp only [Except.ok.injEq] at hok
          have hbound : ∀ kv ∈ ovs, kv.1 <
              (List.replicate (max (maxIndexOv ovs + 1).toNat l.length)
                (none : Option α)).length := by
            intro kv hmem
            have h1 := mem_le_maxIndexOv ovs kv hmem
            simp only [List.length_replicate]
            omega
          have happget := applyOverrides_get ek z en ovs _ entries1 hnodup hbound happ
          rw [← hok]
          simp only [zeroFill]
          rw [zeroFillAux_get_key z (ovs.map Prod.fst) l.length _ entries2 i hik,
            modelLoop_get_key z (ovs.map Prod.fst) l l.length entries1 entries2
              hml i hik, happget i, hl]
    | none =>
      simp only [populateEntries, sliceNumEntries] at hok
      split at hok
      · simp at hok
      · rename_i entries1 happ
        simp only [Except.ok.injEq] at hok
        have hbound : ∀ kv ∈ ovs, kv.1 <
            (List.replicate (maxIndexOv ovs + 1).toNat (none : Option α)).length := by
          intro kv hmem
          have h1 := mem_le_maxIndexOv ovs kv hmem
          simp only [List.length_replicate]
          omega
        have happget := applyOverrides_get ek z en ovs _ entries1 hnodup hbound happ
        rw [← hok, happget i, hl]

/-- With a non-nilable element kind, an untyped-nil override makes the
override-application loop fail with the "cannot be nil" usage error of
some offending override index, whatever the entries table. -/
theorem applyOverrides_nil_error {α : Type} (ek : GoKind) (z : α) (en : String)
    (ovs : List (Nat × OverrideVal α)) (hnil : nilableKind ek = false)
    (hex : ∃ i, (i, OverrideVal.onil) ∈ ovs) :
    ∃ j, (j, OverrideVal.onil) ∈ ovs ∧
      ∀ entries : List (Option α),
        applyOverrides ek z en ovs entries = .error (nilErrMsg j en) := by
  induction ovs with
  | nil =>
    obtain ⟨i, hi⟩ := hex
    simp at hi
  | cons kv rest ih =>
    obtain ⟨k, ov⟩ := kv
    cases ov with
    | onil =>
      refine ⟨k, List.mem_cons_self _ _, fun entries => ?_⟩
      simp [applyOverrides, hnil]
    | oval v =>
      have hex' : ∃ i, (i, OverrideVal.onil) ∈ rest := by
        obtain ⟨i, hi⟩ := hex
        cases hi with
        | tail _ hm => exact ⟨i, hm⟩
      obtain ⟨j, hj, hfn⟩ := ih hex'
      refine ⟨j, List.mem_cons_of_mem _ hj, fun entries => ?_⟩
      simp only [applyOverrides]
      exact hfn _

/-- The nil-override usage error propagates out of
populateExpectedEntries whenever the array-length precheck passes
(for Slice there is no precheck). -/
theorem populateEntries_nil_error {α : Type} [DecidableEq α] (s : ArraySpec α)
    (hnil : nilableKind s.elemKind = false)
    (hguard : ∀ len, s.kind = .array len → maxIndexOv s.overrides < (len : Int))
    (hex : ∃ i, (i, OverrideVal.onil) ∈ s.overrides) :
    ∃ j, (j, OverrideVal.onil) ∈ s.overrides ∧
      populateEntries s = .error (nilErrMsg j s.elemName) := by
  obtain ⟨kind, ek, z, en, model, ovs⟩ := s
  simp only at hnil hguard hex ⊢
  obtain ⟨j, hj, hfn⟩ := applyOverrides_nil_error ek z en ovs hnil hex
  refine ⟨j, hj, ?_⟩
  cases kind with
  | array len =>
    simp only [populateEntries]
    rw [if_neg (by have h1 := hguard len rfl; omega), hfn]
  | slice =>
    simp only [populateEntries]
    rw [hfn]

theorem arrLoop_isSome_beIndep {α : Type} [Inhabited α]
    (dve : Bool → Nat → α → Option α → Option (ArrErr α))
    (hdve : ∀ i g e, (dve true i g e).isSome = (dve false i g e).isSome)
    (got : List α) (index : Nat) (entries : List (Option α)) :
    (arrLoop dve true got index entries).isSome
      = (arrLoop dve false got index entries).isSome := by
  induction entries generalizing index with
  | nil => rfl
  | cons e rest ih =>
    simp only [arrLoop]
    by_cases hlen : got.length ≤ index
    · rw [if_pos hlen, if_pos hlen]
      rfl
    · rw [if_neg hlen, if_neg hlen]
      have h := hdve index (got.getD index default) e
      cases ht : dve true index (got.getD index default) e with
      | some err =>
        cases hf : dve false index (got.getD index default) e with
        | some err2 => rfl
        | none => rw [ht, hf] at h; simp at h
      | none =>
        cases hf : dve false index (got.getD index default) e with
        | some err2 => rw [ht, hf] at h; simp at h
        | none => exact ih (index + 1)

theorem tdArrayMatch_isSome_beIndep {α : Type} [Inhabited α]
    (dve : Bool → Nat → α → Option α → Option (ArrErr α))
    (hdve : ∀ i g e, (dve true i g e).isSome = (dve false i g e).isSome)
    (entries : List (Option α)) (got : List α) :
    (tdArrayMatch dve true entries got).isSome
      = (tdArrayMatch dve false entries got).isSome := by
  simp only [tdArrayMatch]
  have h := arrLoop_isSome_beIndep dve hdve got 0 entries
  cases ht : arrLoop dve true got 0 entries with
  | some e1 =>
    cases hf : arrLoop dve false got 0 entries with
    | some e2 => rfl
    | none => rw [ht, hf] at h; simp at h
  | none =>
    cases hf : arrLoop dve false got 0 entries with
    | some e2 => rw [ht, hf] at h; simp at h
    | none =>
      by_cases hg : entries.length < got.length
      · rw [if_pos hg, if_pos hg]
        rfl
      · rw [if_neg hg, if_neg hg]

theorem tdReMatchStr_isSome_beIndep (r : TdReOp)
    (hcap : ∀ cap, r.captures = some cap →
      ∀ caps, (cap true caps).isSome = (cap false caps).isSome)
    (s : String) :
    (tdReMatchStr r true s).isSome = (tdReMatchStr r false s).isSome := by
  simp only [tdReMatchStr]
  cases hc : r.captures with
  | some cap =>
    simp only [reMatchStringCaptures]
    split
    · rfl
    · exact hcap cap hc _
  | none =>
    simp only [reMatchBool]
    split
    · rfl
    · rfl

theorem tdReMatch_isSome_beIndep (r : TdReOp)
    (hcap : ∀ cap, r.captures = some cap →
      ∀ caps, (cap true caps).isSome = (cap false caps).isSome)
    (got : ReGot) :
    (tdReMatch r true got).isSome = (tdReMatch r false got).isSome := by
  cases got with
  | rstr s => exact tdReMatchStr_isSome_beIndep r hcap s
  | rbytes b =>
    simp only [tdReMatch]
    cases hc : r.captures with
    | some cap =>
      simp only [reMatchByteCaptures]
      split
      · rfl
      · exact hcap cap hc _
    | none =>
      simp only [reMatchBool]
      split
      · rfl
      · rfl
  | rbadSlice elemKind => rfl
  | riface errView strView typeName =>
    cases errView with
    | some s => exact tdReMatchStr_isSome_beIndep r hcap s
    | none =>
      cases strView with
      | some s => exact tdReMatchStr_isSome_beIndep r hcap s
      | none => rfl

theorem tdJSONMatch_isSome_beIndep {γ ε : Type} (rt : γ → Except String JVal)
    (dve : Ctx → JVal → ε → Option JErr) (expected : ε)
    (hdve : ∀ lax v, (dve ⟨true, lax⟩ v expected).isSome
      = (dve ⟨false, lax⟩ v expected).isSome)
    (lax : Bool) (g : γ) :
    (tdJSONMatch rt dve expected ⟨true, lax⟩ g).isSome
      = (tdJSONMatch rt dve expected ⟨false, lax⟩ g).isSome := by
  simp only [tdJSONMatch, jsonify]
  cases rt g with
  | error msg => rfl
  | ok v => exact hdve true v

theorem tdMapJSONMatch_isSome_beIndep {γ : Type} (rt : γ → Except String JVal)
    (mm : Ctx → JVal → Option JErr)
    (hmm : ∀ lax v, (mm ⟨true, lax⟩ v).isSome = (mm ⟨false, lax⟩ v).isSome)
    (lax : Bool) (g : γ) :
    (tdMapJSONMatch rt mm ⟨true, lax⟩ g).isSome
      = (tdMapJSONMatch rt mm ⟨false, lax⟩ g).isSome := by
  simp only [tdMapJSONMatch, jsonify]
  cases rt g with
  | error msg => rfl
  | ok v =>
    by_cases hn : v.isNull
    · simp only [hn]
      rfl
    · simp only [Bool.not_eq_true] at hn
      simp only [hn]
      exact hmm true v

/-- dveEntry never lets the boolean-only flag decide whether it fails:
plain deep equality of the element decides it. -/
theorem dveEntry_isSome_beIndep {α : Type} [DecidableEq α] (i : Nat) (g : α)
    (e : Option α) : (dveEntry true i g e).isSome = (dveEntry false i g e).isSome := by
  cases e with
  | none => rfl
  | some v =>
    simp only [dveEntry]
    by_cases h : g = v
    · rw [if_pos h, if_pos h]
    · rw [if_neg h, if_neg h]
      rfl

theorem arrLoopSt_fst {α : Type} [Inhabited α]
    (dve : Bool → Nat → α → Option α → Option (ArrErr α)) (be : Bool)
    (a : TdArrayOp α) (got : List α) (index : Nat) (entries : List (Option α)) :
    (arrLoopSt dve be a got index entries).1 = a := by
  induction entries generalizing index with
  | nil => rfl
  | cons e rest ih =>
    simp only [arrLoopSt]
    by_cases hlen : got.length ≤ index
    · rw [if_pos hlen]
    · rw [if_neg hlen]
      cases dve be index (got.getD index default) e with
      | some err => rfl
      | none => exact ih (index + 1)

/-- C1: for every Array or Slice operator built from a model sequence
and an ArrayEntries override map, the slot of every index holds the
spec's effective expected value: the override if present, else the
model's value where the model covers the index, else the element zero
value. The spec's sparse-array example: the operator built from model
0,14 (fixed length 3) with overrides 0↦12, 2↦17 carries the entries
12,14,17, matches got 12,14,17, and fails against got 12,14,18 with a
single element error at index 2 only. -/
theorem c1_sparse_resolution_rule_and_example (α : Type) [DecidableEq α] :
    (∀ (s : ArraySpec α) (l : List α) (entries : List (Option α)),
      s.model = some l →
      (s.overrides.map Prod.fst).Nodup →
      (∀ len, s.kind = .array len → l.length = len) →
      populateEntries s = .ok entries →
      ∀ i, i < entries.length →
        entries.get? i = some (some (specEffectiveExpected s l i)))
    ∧ populateEntries exC1Spec = .ok [some 12, some 14, some 17]
    ∧ tdArrayMatch dveEntry false [some 12, some 14, some 17] [12, 14, 17] = none
    ∧ tdArrayMatch dveEntry false [some 12, some 14, some 17] [12, 14, 18]
        = some (.elemMismatch 2 18 (some 17)) := by
  refine ⟨populateEntries_resolution, rfl, by decide, by decide⟩

/-- Witness for C1: the resolution rule applied to the example operator
at index 1, where the model value 14 is in effect. -/
theorem c1_sparse_resolution_rule_and_example_witness :
    ([some 12, some 14, some 17] : List (Option Int)).get? 1
      = some (some (specEffectiveExpected exC1Spec [0, 14, 0] 1)) :=
  (c1_sparse_resolution_rule_and_example Int).1 exC1Spec [0, 14, 0]
    [some 12, some 14, some 17] rfl (by decide)
    (fun len h => by cases h; rfl) rfl 1 (by decide)

/-- C2: boolean-only mode is failure-equivalent to normal mode in every
embedded Match: whenever the recursive sub-comparisons a Match delegates
to (deepValueEqual on elements, on flattened captures, on the
round-tripped JSON value, and tdMap.match) fail independently of the
flag, the Match itself fails with the flag set exactly when it fails
with the flag clear. -/
theorem c2_boolean_only_failure_equivalence {α γ ε : Type} [Inhabited α]
    (dve : Bool → Nat → α → Option α → Option (ArrErr α))
    (hdve : ∀ i g e, (dve true i g e).isSome = (dve false i g e).isSome)
    (entries : List (Option α)) (got : List α)
    (r : TdReOp)
    (hcap : ∀ cap, r.captures = some cap →
      ∀ caps, (cap true caps).isSome = (cap false caps).isSome)
    (rgot : ReGot)
    (rt : γ → Except String JVal) (dvej : Ctx → JVal → ε → Option JErr)
    (jexp : ε)
    (hdvej : ∀ lax v, (dvej ⟨true, lax⟩ v jexp).isSome
      = (dvej ⟨false, lax⟩ v jexp).isSome)
    (mm : Ctx → JVal → Option JErr)
    (hmm : ∀ lax v, (mm ⟨true, lax⟩ v).isSome = (mm ⟨false, lax⟩ v).isSome)
    (lax : Bool) (g : γ) :
    (tdArrayMatch dve true entries got).isSome
      = (tdArrayMatch dve false entries got).isSome
    ∧ (tdReMatch r true rgot).isSome = (tdReMatch r false rgot).isSome
    ∧ (tdJSONMatch rt dvej jexp ⟨true, lax⟩ g).isSome
      = (tdJSONMatch rt dvej jexp ⟨false, lax⟩ g).isSome
    ∧ (tdMapJSONMatch rt mm ⟨true, lax⟩ g).isSome
      = (tdMapJSONMatch rt mm ⟨false, lax⟩ g).isSome :=
  ⟨tdArrayMatch_isSome_beIndep dve hdve entries got,
   tdReMatch_isSome_beIndep r hcap rgot,
   tdJSONMatch_isSome_beIndep rt dvej jexp hdvej lax g,
   tdMapJSONMatch_isSome_beIndep rt mm hmm lax g⟩

/-- Witness for C2, instantiated with the plain-value element dispatcher
on Int entries, a captures-free Re operator, and trivial JSON
sub-dispatchers. -/
theorem c2_boolean_only_failure_equivalence_witness :
    ((tdArrayMatch (dveEntry (α := Int)) true [some 1] [2]).isSome
      = (tdArrayMatch (dveEntry (α := Int)) false [some 1] [2]).isSome)
    ∧ ((tdReMatch exReTriv true (.rstr "y")).isSome
      = (tdReMatch exReTriv false (.rstr "y")).isSome)
    ∧ ((tdJSONMatch rtId (fun _ _ _ => (none : Option JErr)) () ⟨true, false⟩
          JVal.jnull).isSome
      = (tdJSONMatch rtId (fun _ _ _ => (none : Option JErr)) () ⟨false, false⟩
          JVal.jnull).isSome)
    ∧ ((tdMapJSONMatch rtId (fun _ _ => (none : Option JErr)) ⟨true, false⟩
          JVal.jnull).isSome
      = (tdMapJSONMatch rtId (fun _ _ => (none : Option JErr)) ⟨false, false⟩
          JVal.jnull).isSome) :=
  c2_boolean_only_failure_equivalence
    (dveEntry (α := Int)) (fun i g e => dveEntry_isSome_beIndep i g e)
    [some 1] [2]
    exReTriv (fun _ hc => Option.noConfusion hc) (.rstr "y")
    rtId (fun _ _ _ => (none : Option JErr)) ()
    (fun _ _ => rfl)
    (fun _ _ => (none : Option JErr)) (fun _ _ => rfl)
    false JVal.jnull

/-- C3: the JSON operators' Match passes got through the canonical JSON
encode/decode round trip before comparing and forces laxness on for that
comparison; a got value that cannot be JSON-encoded yields a match error
carrying the encoder's diagnostic summary (or the boolean sentinel in
boolean-only mode), never a silent success. -/
theorem c3_json_roundtrip_before_lax_compare {γ ε : Type}
    (rt : γ → Except String JVal) (dve : Ctx → JVal → ε → Option JErr)
    (mm : Ctx → JVal → Option JErr) (expected : ε) (ctx : Ctx) (g : γ) :
    (∀ msg, rt g = .error msg →
      tdJSONMatch rt dve expected ctx g
          = some (if ctx.booleanError then .boolean else .marshalFailed msg)
        ∧ tdMapJSONMatch rt mm ctx g
          = some (if ctx.booleanError then .boolean else .marshalFailed msg))
    ∧ (∀ v, rt g = .ok v →
      tdJSONMatch rt dve expected ctx g = dve { ctx with beLax := true } v expected)
    ∧ (∀ v, rt g = .ok v → v.isNull = false →
      tdMapJSONMatch rt mm ctx g = mm { ctx with beLax := true } v) := by
  refine ⟨?_, ?_, ?_⟩
  · intro msg hmsg
    constructor <;> simp [tdJSONMatch, tdMapJSONMatch, jsonify, hmsg]
  · intro v hv
    simp [tdJSONMatch, jsonify, hv]
  · intro v hv hn
    simp [tdMapJSONMatch, jsonify, hv, hn]

/-- Witness for C3: an unencodable got is reported with the encoder
message, and an encodable got is compared under forced laxness (the
probe dispatcher succeeds only when BeLax is on). -/
theorem c3_json_roundtrip_before_lax_compare_witness :
    tdJSONMatch rtEnc dveLaxProbe (0 : Int) ⟨false, false⟩ true
        = some (.marshalFailed "json: unsupported type: chan int")
    ∧ tdJSONMatch rtEnc dveLaxProbe (0 : Int) ⟨false, false⟩ false
        = dveLaxProbe ⟨false, true⟩ (.jnum 5) 0 :=
  ⟨((c3_json_roundtrip_before_lax_compare rtEnc dveLaxProbe (fun _ _ => none) 0
      ⟨false, false⟩ true).1 "json: unsupported type: chan int" rfl).1,
   (c3_json_roundtrip_before_lax_compare rtEnc dveLaxProbe (fun _ _ => none) 0
      ⟨false, false⟩ false).2.1 (.jnum 5) rfl⟩

/-- C4: all captured groups across all matches found are flattened in
match order then group order into one sequence handed to the recursive
dispatcher against the captures expectation; the spec's examples: the
anchored two-group pattern applied once to "John Doe" with literal
captures expectation succeeds, and ReAll on "a1 b2" with one group per
token and an unordered-bag expectation succeeds despite the order
difference. -/
theorem c4_captures_flattened_in_order_and_dispatched :
    (∀ (pattern : String) (cap : Bool → List String → Option ReErr) (be : Bool)
      (got : String) (result : List (List String)), result ≠ [] →
      reMatchStringCaptures pattern cap be got result
        = cap be (result.flatMap (List.drop 1)))
    ∧ (∀ (pattern : String) (cap : Bool → List String → Option ReErr) (be : Bool)
      (got : List Nat) (result : List (List (List Nat))), result ≠ [] →
      reMatchByteCaptures pattern cap be got result
        = cap be ((result.flatMap (List.drop 1)).map byteStr))
    ∧ tdReMatch exReJohn false (.rstr "John Doe") = none
    ∧ tdReMatch exReAllBag false (.rstr "a1 b2") = none := by
  refine ⟨?_, ?_, by decide, by decide⟩
  · intro pattern cap be got result hne
    have h2 : result.isEmpty = false := by
      cases result with
      | nil => exact absurd rfl hne
      | cons a l => rfl
    simp [reMatchStringCaptures, h2]
  · intro pattern cap be got result hne
    have h2 : result.isEmpty = false := by
      cases result with
      | nil => exact absurd rfl hne
      | cons a l => rfl
    simp [reMatchByteCaptures, h2]

/-- Witness for C4: the flattening law applied to the engine output for
"John Doe". -/
theorem c4_captures_flattened_in_order_and_dispatched_witness :
    reMatchStringCaptures "^(\\w+) (\\w+)$" (litCaptures ["John", "Doe"]) false
        "John Doe" [["John Doe", "John", "Doe"]]
      = litCaptures ["John", "Doe"] false
          ([["John Doe", "John", "Doe"]].flatMap (List.drop 1)) :=
  c4_captures_flattened_in_order_and_dispatched.1 _ _ _ _ _ (by decide)

/-- C5: with a captures expectation, an input on which the engine finds
zero matches produces the distinct "does not match Regexp" error — the
result is a failure, never a success against empty captures. -/
theorem c5_zero_matches_with_captures_is_failure (r : TdReOp)
    (cap : Bool → List String → Option ReErr) (hc : r.captures = some cap)
    (be : Bool) (s : String) (b : List Nat) :
    (r.findAllStringSubmatchFn s r.numMatches = [] →
      tdReMatch r be (.rstr s) = reDoesNotMatch r.pattern be s
        ∧ (tdReMatch r be (.rstr s)).isSome = true)
    ∧ (r.findAllSubmatchFn b r.numMatches = [] →
      tdReMatch r be (.rbytes b) = reDoesNotMatch r.pattern be (byteStr b)
        ∧ (tdReMatch r be (.rbytes b)).isSome = true)
    ∧ (be = false →
      reDoesNotMatch r.pattern be s = some (.doesNotMatchRegexp s r.pattern)) := by
  refine ⟨?_, ?_, ?_⟩
  · intro hz
    have he : tdReMatch r be (.rstr s) = reDoesNotMatch r.pattern be s := by
      simp [tdReMatch, tdReMatchStr, hc, reMatchStringCaptures, hz]
    refine ⟨he, ?_⟩
    rw [he]
    simp only [reDoesNotMatch]
    cases be <;> rfl
  · intro hz
    have he : tdReMatch r be (.rbytes b) = reDoesNotMatch r.pattern be (byteStr b) := by
      simp [tdReMatch, hc, reMatchByteCaptures, hz]
    refine ⟨he, ?_⟩
    rw [he]
    simp only [reDoesNotMatch]
    cases be <;> rfl
  · intro hbe
    rw [hbe]
    rfl

/-- Witness for C5: the example captures operator applied to "nope",
which the engine does not match. -/
theorem c5_zero_matches_with_captures_is_failure_witness :
    tdReMatch exReNope false (.rstr "nope")
        = reDoesNotMatch exReNope.pattern false "nope"
      ∧ (tdReMatch exReNope false (.rstr "nope")).isSome = true :=
  (c5_zero_matches_with_captures_is_failure exReNope (litCaptures ["John", "Doe"])
    rfl false "nope" []).1 (by decide)

/-- C6: tdRe.Match applies the pattern to strings, to []uint8 slices,
and to any other value through its error view first, else its Stringer
view (a value exposing both is matched against its error text); a
non-[]uint8 slice or a value with neither view is a bad slice type /
bad type error whose value does not depend on the operator's regexp at
all. -/
theorem c6_re_match_kind_dispatch (r r2 : TdReOp) (be : Bool) (s : String)
    (b : List Nat) (ek tn : String) (sv : Option String) (es ss : String) :
    tdReMatch r be (.rstr s) = tdReMatchStr r be s
    ∧ tdReMatch r be (.rbytes b)
        = (match r.captures with
           | some cap => reMatchByteCaptures r.pattern cap be b
               (r.findAllSubmatchFn b r.numMatches)
           | none => reMatchBool r.pattern be (byteStr b) (r.matchBytesFn b))
    ∧ tdReMatch r be (.riface (some es) sv tn) = tdReMatchStr r be es
    ∧ tdReMatch r be (.riface none (some ss) tn) = tdReMatchStr r be ss
    ∧ tdReMatch r be (.rbadSlice ek)
        = (if be then some .boolean else some (.badSliceType ek))
    ∧ tdReMatch r be (.riface none none tn)
        = (if be then some .boolean else some (.badType tn))
    ∧ tdReMatch r be (.rbadSlice ek) = tdReMatch r2 be (.rbadSlice ek)
    ∧ tdReMatch r be (.riface none none tn) = tdReMatch r2 be (.riface none none tn) :=
  ⟨rfl, rfl, rfl, rfl, rfl, rfl, rfl, rfl⟩

/-- C7: SubJSONOf and SuperJSONOf require the round-tripped got to
classify as a keyed mapping: a null got and a non-mapping got each get
their distinct, dedicated mismatch (null instead of non-null, and the
spec's "expected non-null mapping"), while a mapping got proceeds into
the sub/superset comparison under forced laxness. -/
theorem c7_map_json_requires_mapping {γ : Type} (rt : γ → Except String JVal)
    (veq : JVal → JVal → Bool) (kind : MapKind)
    (expected : List (String × JVal)) (ctx : Ctx) (g : γ) :
    (rt g = .ok .jnull →
      tdMapJSONMatch rt (tdMapMatchModel veq kind expected) ctx g
        = some (if ctx.booleanError then .boolean else .nullInsteadOfMapping))
    ∧ (∀ v, rt g = .ok v → v.isNull = false → v.isObj = false →
      tdMapJSONMatch rt (tdMapMatchModel veq kind expected) ctx g
        = some (if ctx.booleanError then .boolean else .notAMapping))
    ∧ (∀ entries, rt g = .ok (.jobj entries) →
      tdMapJSONMatch rt (tdMapMatchModel veq kind expected) ctx g
        = tdMapMatchModel veq kind expected { ctx with beLax := true }
            (.jobj entries)) := by
  refine ⟨?_, ?_, ?_⟩
  · intro hv
    simp [tdMapJSONMatch, jsonify, hv, JVal.isNull]
  · intro v hv hn ho
    simp only [tdMapJSONMatch, jsonify, hv, hn]
    rw [if_neg (by simp)]
    cases v with
    | jnull => simp [JVal.isNull] at hn
    | jobj entries => simp [JVal.isObj] at ho
    | jbool bv => rfl
    | jnum nv => rfl
    | jstr sv => rfl
    | jarr av => rfl
  · intro entries hv
    simp [tdMapJSONMatch, jsonify, hv, JVal.isNull]

/-- Witness for C7: null, a number, and an object under test, compared
with an identity round trip. -/
theorem c7_map_json_requires_mapping_witness :
    tdMapJSONMatch rtId (tdMapMatchModel (fun _ _ => true) .subMap [])
        ⟨false, false⟩ JVal.jnull = some .nullInsteadOfMapping
    ∧ tdMapJSONMatch rtId (tdMapMatchModel (fun _ _ => true) .subMap [])
        ⟨false, false⟩ (.jnum 3) = some .notAMapping
    ∧ tdMapJSONMatch rtId (tdMapMatchModel (fun _ _ => true) .subMap [])
        ⟨false, false⟩ (.jobj [])
      = tdMapMatchModel (fun _ _ => true) .subMap [] ⟨false, true⟩ (.jobj []) :=
  ⟨(c7_map_json_requires_mapping rtId (fun _ _ => true) .subMap [] ⟨false, false⟩
      JVal.jnull).1 rfl,
   (c7_map_json_requires_mapping rtId (fun _ _ => true) .subMap [] ⟨false, false⟩
      (.jnum 3)).2.1 (.jnum 3) rfl rfl rfl,
   (c7_map_json_requires_mapping rtId (fun _ _ => true) .subMap [] ⟨false, false⟩
      (.jobj [])).2.2 [] rfl⟩

/-- C8: for an Array operator over a fixed-length array type, an
override index at or beyond the fixed length makes construction fail
with the "array length is N, so cannot have #M expected index" usage
error, before any comparison can exist. -/
theorem c8_fixed_length_rejects_out_of_range_override {α : Type} [DecidableEq α]
    (s : ArraySpec α) (len : Nat) (hk : s.kind = .array len)
    (k : Nat) (ov : OverrideVal α) (hmem : (k, ov) ∈ s.overrides) (hge : len ≤ k) :
    populateEntries s = .error (arrayLenErrMsg len (maxIndexOv s.overrides)) := by
  obtain ⟨kind, ek, z, en, model, ovs⟩ := s
  simp only at hk hmem ⊢
  subst hk
  have h1 := mem_le_maxIndexOv ovs (k, ov) hmem
  simp only at h1
  simp only [populateEntries]
  rw [if_pos (show (len : Int) ≤ maxIndexOv ovs by omega)]

/-- Witness for C8: the example Array of length 3 with an override at
index 3. -/
theorem c8_fixed_length_rejects_out_of_range_override_witness :
    populateEntries exC8Spec
      = .error (arrayLenErrMsg 3 (maxIndexOv exC8Spec.overrides)) :=
  c8_fixed_length_rejects_out_of_range_override exC8Spec 3 rfl 3 (.oval 5)
    (by decide) (by decide)

/-- C9: none of the embedded Match functions mutates the operator's own
state: threading the operator value through every step of each Match,
the operator handed back equals the one handed in, for every context and
got value (hence a constructed operator can be reused across
comparisons). -/
theorem c9_match_preserves_operator_state {α γ ε : Type} [Inhabited α]
    (dve : Bool → Nat → α → Option α → Option (ArrErr α)) (be : Bool)
    (a : TdArrayOp α) (got : List α) (r : TdReOp) (rgot : ReGot)
    (rt : γ → Except String JVal) (dvej : Ctx → JVal → ε → Option JErr)
    (j : TdJSONOp ε) (ctx : Ctx) (g : γ)
    (mm : MapKind → List (String × JVal) → Ctx → JVal → Option JErr)
    (m : TdMapJSONOp) :
    (tdArrayMatchSt dve be a got).1 = a
    ∧ (tdReMatchSt r be rgot).1 = r
    ∧ (tdJSONMatchSt rt dvej j ctx g).1 = j
    ∧ (tdMapJSONMatchSt rt mm m ctx g).1 = m := by
  refine ⟨?_, ?_, ?_, ?_⟩
  · simp only [tdArrayMatchSt]
    split
    · rename_i a2 err heq
      have h := arrLoopSt_fst dve be a got 0 a.expectedEntries
      rw [heq] at h
      exact h
    · rename_i a2 heq
      have h := arrLoopSt_fst dve be a got 0 a.expectedEntries
      rw [heq] at h
      simp only at h
      split
      · exact h
      · exact h
  · cases rgot with
    | rstr s =>
      simp only [tdReMatchSt, tdReMatchStrSt]
      cases r.captures <;> rfl
    | rbytes b =>
      simp only [tdReMatchSt]
      cases r.captures <;> rfl
    | rbadSlice ek => rfl
    | riface ev sv tn =>
      cases ev with
      | some s =>
        simp only [tdReMatchSt, tdReMatchStrSt]
        cases r.captures <;> rfl
      | none =>
        cases sv with
        | some s =>
          simp only [tdReMatchSt, tdReMatchStrSt]
          cases r.captures <;> rfl
        | none => rfl
  · simp only [tdJSONMatchSt]
    cases jsonify rt ctx.booleanError g <;> rfl
  · simp only [tdMapJSONMatchSt]
    cases hj : jsonify rt ctx.booleanError g with
    | error e => rfl
    | ok got2 =>
      by_cases hn : got2.isNull
      · simp [hn]
      · simp [hn]

/-- C10: an untyped-nil override entry is accepted only for the nilable
element kinds (chan, func, interface, map, pointer, slice), in which
case its slot holds the typed nil zero value of the element type; for
any other element kind construction fails with the usage error naming an
offending index. -/
theorem c10_nil_override_policy {α : Type} [DecidableEq α] (s : ArraySpec α) :
    (nilableKind s.elemKind = false →
      (∀ len, s.kind = .array len → maxIndexOv s.overrides < (len : Int)) →
      (∃ i, (i, OverrideVal.onil) ∈ s.overrides) →
      ∃ j, (j, OverrideVal.onil) ∈ s.overrides ∧
        populateEntries s = .error (nilErrMsg j s.elemName))
    ∧ (nilableKind s.elemKind = true →
      ∀ entries, (s.overrides.map Prod.fst).Nodup →
        populateEntries s = .ok entries →
        ∀ i, List.lookup i s.overrides = some OverrideVal.onil →
          entries.get? i = some (some s.zero)) := by
  constructor
  · intro hnil hguard hex
    exact populateEntries_nil_error s hnil hguard hex
  · intro _ entries hnodup hok i hl
    exact populateEntries_override_slot s entries hnodup hok i .onil hl

/-- Witness for C10: over []int the nil override is rejected with the
usage error; over []*int it is accepted and the slot holds the typed nil
zero value. -/
theorem c10_nil_override_policy_witness :
    (∃ j, (j, OverrideVal.onil) ∈ exC10BadSpec.overrides ∧
      populateEntries exC10BadSpec = .error (nilErrMsg j exC10BadSpec.elemName))
    ∧ ([some 0, some 0] : List (Option Int)).get? 1
        = some (some exC10GoodSpec.zero) :=
  ⟨(c10_nil_override_policy exC10BadSpec).1 rfl (fun len h => by cases h)
      ⟨1, by decide⟩,
   (c10_nil_override_policy exC10GoodSpec).2 rfl [some 0, some 0] (by decide)
      rfl 1 (by decide)⟩

end TestDeep
